import Mathlib

/-!
Verification of the learn-english backend (server.js and the offline
dictionary-preparation script) against its specification.

Modelling conventions for the shallow embedding:

* JSON string fields that the JavaScript tests for truthiness are modelled
  as `String`, with the empty string standing for both an absent field and
  an empty value (JavaScript `||` and `if (x)` cannot tell them apart).
* The two persisted JSON documents, `history.json` and `used_words.json`,
  form a `StoreState`.  A JavaScript object is an association list whose
  key order is insertion order; a JavaScript `Set` of strings is a
  duplicate-free list in insertion order (`setAdd` / `setOfList`).
* The remote fetch performed by `getWordDetails` is a parameter
  `fetch : String → FetchOutcome`: `ok entries` is a 2xx response whose
  body parsed to a JSON array of entries; `httpError` is `!response.ok`;
  `failure` is any transport error, parse error, or shape mismatch that
  throws inside the `try` block.
* `Math.floor(Math.random() * len)` is modelled by an oracle
  `rand : Nat → Nat`, reduced `mod len` at each draw.
* `fs.writeFile` either rewrites the whole file or throws; the two flags
  `firstSaveOk`, `secondSaveOk` say whether the `history.json` write and
  the `used_words.json` write succeed.  A failed write leaves its file
  unchanged and aborts the run (the thrown error propagates).
-/

/-- One element of an entry's `phonetics` array: `{text, audio}`. -/
structure Phonetic where
  text : String
  audio : String
deriving DecidableEq, Repr

/-- One element of a meaning's `definitions` array: `{definition, example?}`. -/
structure Defn where
  definition : String
  «example» : String
deriving DecidableEq, Repr

/-- One element of an entry's `meanings` array. -/
structure Meaning where
  definitions : List Defn
  synonyms : List String
  antonyms : List String
deriving DecidableEq, Repr

/-- One entry of the dictionary API response array. -/
structure Entry where
  word : String
  phonetic : String
  phonetics : List Phonetic
  meanings : List Meaning
deriving DecidableEq, Repr

/-- The record built by `getWordDetails` (server.js lines 45-53). -/
@[ext]
structure WordRecord where
  word : String
  pronunciation : String
  audio : String
  meaning : String
  «example» : String
  synonyms : List String
  antonyms : List String
deriving DecidableEq, Repr

/-- Outcome of the `fetch` call inside `getWordDetails`. -/
inductive FetchOutcome where
  | ok (entries : List Entry)
  | httpError
  | failure
deriving DecidableEq, Repr

/-- JavaScript `a || b` on strings, where only `""` is falsy. -/
def jsOr (a b : String) : String := if a = "" then b else a

/-- Normalisation of the first response entry, server.js lines 45-53:
`entry.word`, `entry.phonetic || (entry.phonetics.find(p => p.text) || {}).text || ''`,
`(entry.phonetics.find(p => p.audio && p.audio.length > 0) || {}).audio || ''`,
`entry.meanings[0]?.definitions[0]?.definition || 'No definition available.'`,
`entry.meanings[0]?.definitions.find(d => d.example)?.example || '...'`,
`entry.meanings[0]?.synonyms || []`, `entry.meanings[0]?.antonyms || []`. -/
def normalizeEntry (entry : Entry) : WordRecord where
  word := entry.word
  pronunciation :=
    jsOr entry.phonetic
      (jsOr (((entry.phonetics.find? fun p => p.text ≠ "").map Phonetic.text).getD "") "")
  audio := ((entry.phonetics.find? fun p => p.audio ≠ "").map Phonetic.audio).getD ""
  meaning :=
    jsOr (((entry.meanings.head?.bind fun m => m.definitions.head?).map
      Defn.definition).getD "") "No definition available."
  «example» :=
    jsOr (((entry.meanings.head?.bind fun m =>
      m.definitions.find? fun d => d.«example» ≠ "").map Defn.example).getD "")
      "No example sentence available."
  synonyms := (entry.meanings.head?.map Meaning.synonyms).getD []
  antonyms := (entry.meanings.head?.map Meaning.antonyms).getD []

/-- server.js lines 38-58.  `httpError` is the `!response.ok` early `null`;
`failure` is anything thrown and caught (transport, parse, shape); an empty
response array makes `data[0]` undefined, so `entry.word` throws and the
catch returns `null`. -/
def getWordDetails (word : String) (fetch : String → FetchOutcome) : Option WordRecord :=
  match fetch word with
  | .httpError => none
  | .failure => none
  | .ok [] => none
  | .ok (entry :: _) => some (normalizeEntry entry)

/-- JavaScript `Set.prototype.add`: append unless already present. -/
def setAdd (l : List String) (w : String) : List String :=
  if w ∈ l then l else l ++ [w]

/-- `new Set(list)` then spread: first-seen deduplication in insertion order. -/
def setOfList (ws : List String) : List String := ws.foldl setAdd []

/-- The parsed `history.json`: a JavaScript object keyed by date string. -/
abbrev History := List (String × List WordRecord)

/-- `history[date]` (undefined becomes `none`). -/
def lookupHistory : History → String → Option (List WordRecord)
  | [], _ => none
  | (k, v) :: rest, d => if k = d then some v else lookupHistory rest d

/-- `history[date] = records`: overwrite in place if the key exists,
otherwise append (JavaScript object key order). -/
def setKey : History → String → List WordRecord → History
  | [], k, v => [(k, v)]
  | (k', v') :: rest, k, v =>
    if k' = k then (k', v) :: rest else (k', v') :: setKey rest k v

/-- The on-disk state of `history.json` and `used_words.json`. -/
structure StoreState where
  history : History
  used : List String
deriving DecidableEq, Repr

/-- Result of the selection loop, server.js lines 83-93.  `picks` is a ghost
trace of every word drawn from the pool (whether or not its enrichment
succeeded); the program itself only uses `newWords` and `used`. -/
structure LoopResult where
  newWords : List WordRecord
  used : List String
  picks : List String
deriving DecidableEq, Repr

/-- The `while (newWords.length < 3 && availableWords.length > 0)` loop,
server.js lines 84-93.  `fuel` is the initial pool size: each iteration
splices one word out of `available`, so the loop runs at most that often
and the fuel never cuts it short. -/
def selectLoop (fetch : String → FetchOutcome) (rand : Nat → Nat) :
    Nat → List String → List WordRecord → List String → List String → Nat → LoopResult
  | 0, _, newWords, used, picks, _ => ⟨newWords, used, picks⟩
  | fuel + 1, available, newWords, used, picks, k =>
    if newWords.length < 3 ∧ 0 < available.length then
      let randomIndex := rand k % available.length
      let selectedWord := available.getD randomIndex ""
      let remaining := available.eraseIdx randomIndex
      match getWordDetails selectedWord fetch with
      | some details =>
          selectLoop fetch rand fuel remaining (newWords ++ [details])
            (setAdd used selectedWord) (picks ++ [selectedWord]) (k + 1)
      | none =>
          selectLoop fetch rand fuel remaining newWords used
            (picks ++ [selectedWord]) (k + 1)
    else ⟨newWords, used, picks⟩

/-- server.js lines 63-103, one run of `updateDailyWords` for date `today`
on pre-run disk state `s`, with `wordlist` the parsed `wordlist.json`.
Returns the post-run disk state: any abort before the first save, and any
failure of the first save, leaves the disk as it was; a failure of the
second save leaves `history.json` rewritten but `used_words.json` as it
was. -/
def updateDailyWords (today : String) (wordlist : List String)
    (fetch : String → FetchOutcome) (rand : Nat → Nat)
    (firstSaveOk secondSaveOk : Bool) (s : StoreState) : StoreState :=
  if (lookupHistory s.history today).isSome then s
  else
    let usedWords := setOfList s.used
    let availableWords := wordlist.filter fun w => !usedWords.contains w
    if availableWords.length < 3 then s
    else
      let r := selectLoop fetch rand availableWords.length availableWords [] usedWords [] 0
      if r.newWords.length = 3 then
        if firstSaveOk then
          if secondSaveOk then ⟨setKey s.history today r.newWords, r.used⟩
          else ⟨setKey s.history today r.newWords, s.used⟩
        else s
      else s

/-- Ghost companion of `updateDailyWords`: the trace of words drawn from the
pool during the run (empty when the run stops before the loop). -/
def updateDailyWordsPicks (today : String) (wordlist : List String)
    (fetch : String → FetchOutcome) (rand : Nat → Nat) (s : StoreState) : List String :=
  if (lookupHistory s.history today).isSome then []
  else
    let usedWords := setOfList s.used
    let availableWords := wordlist.filter fun w => !usedWords.contains w
    if availableWords.length < 3 then []
    else (selectLoop fetch rand availableWords.length availableWords [] usedWords [] 0).picks

/-- Response of `GET /api/words/:date`, server.js lines 119-131. -/
inductive ApiResult where
  | ok (records : List WordRecord)
  | notFound
deriving DecidableEq, Repr

/-- server.js lines 122-127: `history[date]` or a 404. -/
def getWords (history : History) (date : String) : ApiResult :=
  match lookupHistory history date with
  | some records => .ok records
  | none => .notFound

/-- Insertion step of the comparison sort
`Object.keys(history).sort((a, b) => b.localeCompare(a))`: place `d` before
the first element that is not greater than it (descending order). -/
def insertDesc (d : String) : List String → List String
  | [] => [d]
  | x :: xs => if x ≤ d then d :: x :: xs else x :: insertDesc d xs

/-- server.js lines 110-112: the history keys sorted newest-first. -/
def listDates (history : History) : List String :=
  (history.map Prod.fst).foldr insertDesc []

/-- prepare-dictionary.js line 17: `line.split(',')[0].trim()`. -/
def firstField (line : String) : String := ((line.splitOn ",").headD "").trim

/-- One character class of the regex `[a-zA-Z]`. -/
def isAsciiAlpha (c : Char) : Bool := (('a' ≤ c) && (c ≤ 'z')) || (('A' ≤ c) && (c ≤ 'Z'))

/-- prepare-dictionary.js line 18:
`word && word.length > 2 && /^[a-zA-Z]+$/.test(word)`. -/
def keepWord (w : String) : Bool :=
  (w ≠ "") && (2 < w.length) && w.data.all isAsciiAlpha

/-- prepare-dictionary.js lines 15-21: map each line to its trimmed first
field, filter, then `[...new Set(words)]`. -/
def buildCorpus (lines : List String) : List String :=
  setOfList ((lines.map firstField).filter keepWord)

/-- The spec side of first-seen-order deduplication (§4.1 "Deduplicate while
preserving first-seen order"): keep each element's first occurrence in
place and erase every later duplicate. -/
def nubFirst : List String → List String
  | [] => []
  | x :: xs => x :: nubFirst (xs.filter fun y => y ≠ x)
termination_by l => l.length
decreasing_by
  simp only [List.length_cons]
  exact Nat.lt_succ_of_le (List.length_filter_le _ _)

/-- The spec's normalisation rules (§4.3), written clause by clause with
"present" meaning non-empty: pronunciation falls back from the top-level
phonetic to the first phonetics element with non-empty text; audio is the
first phonetics element with non-empty audio; meaning is the first
definition of the first meaning group, else the placeholder; example is the
first definition of the first meaning group that has an example, else the
placeholder; synonyms and antonyms come from the first meaning group. -/
def wordRecordSpec (entry : Entry) : WordRecord where
  word := entry.word
  pronunciation :=
    if entry.phonetic ≠ "" then entry.phonetic
    else
      match entry.phonetics.find? fun p => p.text ≠ "" with
      | some p => p.text
      | none => ""
  audio :=
    match entry.phonetics.find? fun p => p.audio ≠ "" with
    | some p => p.audio
    | none => ""
  meaning :=
    match entry.meanings.head? with
    | none => "No definition available."
    | some m =>
      match m.definitions.head? with
      | none => "No definition available."
      | some d => if d.definition ≠ "" then d.definition else "No definition available."
  «example» :=
    match entry.meanings.head? with
    | none => "No example sentence available."
    | some m =>
      match m.definitions.find? fun d => d.«example» ≠ "" with
      | some d => d.«example»
      | none => "No example sentence available."
  synonyms :=
    match entry.meanings.head? with
    | none => []
    | some m => m.synonyms
  antonyms :=
    match entry.meanings.head? with
    | none => []
    | some m => m.antonyms

/-- The History/Ledger cross-store invariant of §3 and §8: every key of the
History Store holds exactly 3 records, and each record's word is in the
Usage Ledger. -/
def HistoryInv (s : StoreState) : Prop :=
  ∀ d recs, lookupHistory s.history d = some recs →
    recs.length = 3 ∧ ∀ r ∈ recs, r.word ∈ s.used

/-! ## Helper lemmas about the JavaScript `Set` model -/

lemma mem_setAdd {l : List String} {w a : String} :
    a ∈ setAdd l w ↔ a ∈ l ∨ a = w := by
  unfold setAdd
  by_cases h : w ∈ l
  · rw [if_pos h]
    constructor
    · exact Or.inl
    · rintro (h' | rfl)
      · exact h'
      · exact h
  · rw [if_neg h]
    simp

lemma mem_setAdd_of_mem {l : List String} {a : String} (w : String) (h : a ∈ l) :
    a ∈ setAdd l w :=
  mem_setAdd.mpr (Or.inl h)

lemma nodup_setAdd {l : List String} (w : String) (h : l.Nodup) :
    (setAdd l w).Nodup := by
  unfold setAdd
  by_cases hw : w ∈ l
  · rw [if_pos hw]
    exact h
  · rw [if_neg hw, List.nodup_append]
    refine ⟨h, by simp, ?_⟩
    intro x hx hxw
    simp only [List.mem_singleton] at hxw
    exact hw (hxw ▸ hx)

lemma mem_foldl_setAdd (ws : List String) :
    ∀ (acc : List String) (a : String), a ∈ ws.foldl setAdd acc ↔ a ∈ acc ∨ a ∈ ws := by
  induction ws with
  | nil => simp
  | cons w ws ih =>
    intro acc a
    rw [List.foldl_cons, ih, mem_setAdd]
    simp [or_assoc]

lemma mem_setOfList {ws : List String} {a : String} : a ∈ setOfList ws ↔ a ∈ ws := by
  rw [setOfList, mem_foldl_setAdd]
  simp

lemma nodup_foldl_setAdd (ws : List String) :
    ∀ acc : List String, acc.Nodup → (ws.foldl setAdd acc).Nodup := by
  induction ws with
  | nil => intro acc h; simpa using h
  | cons w ws ih => intro acc h; exact ih _ (nodup_setAdd w h)

lemma foldl_setAdd_append (ws : List String) :
    ∀ acc : List String, ∃ t, ws.foldl setAdd acc = acc ++ t ∧ t.Sublist ws := by
  induction ws with
  | nil => intro acc; exact ⟨[], by simp⟩
  | cons w ws ih =>
    intro acc
    rw [List.foldl_cons]
    unfold setAdd
    by_cases hw : w ∈ acc
    · rw [if_pos hw]
      obtain ⟨t, ht, hs⟩ := ih acc
      exact ⟨t, ht, hs.cons w⟩
    · rw [if_neg hw]
      obtain ⟨t, ht, hs⟩ := ih (acc ++ [w])
      exact ⟨w :: t, by simpa using ht, hs.cons₂ w⟩

/-! ## Helper lemmas about the history object model -/

lemma lookup_setKey (h : History) (k : String) (v : List WordRecord) (d : String) :
    lookupHistory (setKey h k v) d = if k = d then some v else lookupHistory h d := by
  induction h with
  | nil => simp [setKey, lookupHistory]
  | cons p rest ih =>
    obtain ⟨k', v'⟩ := p
    unfold setKey
    by_cases hk : k' = k
    · subst hk
      by_cases hd : k' = d <;> simp [lookupHistory, hd]
    · rw [if_neg hk]
      by_cases hd : k' = d
      · subst hd
        have : ¬ k = k' := fun h' => hk h'.symm
        simp [lookupHistory, this]
      · simp [lookupHistory, hd, ih]

/-! ## Invariants of the selection loop -/

lemma self_mem_setAdd (l : List String) (w : String) : w ∈ setAdd l w :=
  mem_setAdd.mpr (Or.inr rfl)

lemma selectLoop_used_mono (fetch : String → FetchOutcome) (rand : Nat → Nat) :
    ∀ (fuel : Nat) (available : List String) (newWords : List WordRecord)
      (used picks : List String) (k : Nat) (a : String), a ∈ used →
      a ∈ (selectLoop fetch rand fuel available newWords used picks k).used := by
  intro fuel
  induction fuel with
  | zero =>
    intro available nws used picks k a ha
    simpa [selectLoop] using ha
  | succ fuel ih =>
    intro available nws used picks k a ha
    rw [selectLoop]
    dsimp only
    split
    · split
      · exact ih _ _ _ _ _ _ (mem_setAdd_of_mem _ ha)
      · exact ih _ _ _ _ _ _ ha
    · exact ha

lemma selectLoop_newWords_words (fetch : String → FetchOutcome) (rand : Nat → Nat)
    (hecho : ∀ w rec, getWordDetails w fetch = some rec → rec.word = w) :
    ∀ (fuel : Nat) (available : List String) (newWords : List WordRecord)
      (used picks : List String) (k : Nat),
      (∀ r ∈ newWords, r.word ∈ used) →
      ∀ r ∈ (selectLoop fetch rand fuel available newWords used picks k).newWords,
        r.word ∈ (selectLoop fetch rand fuel available newWords used picks k).used := by
  intro fuel
  induction fuel with
  | zero =>
    intro available nws used picks k hacc r hr
    simp only [selectLoop] at hr ⊢
    exact hacc r hr
  | succ fuel ih =>
    intro available nws used picks k hacc
    rw [selectLoop]
    dsimp only
    split
    · split
      · rename_i details hdet
        refine ih _ _ _ _ _ ?_
        intro r hr
        rcases List.mem_append.mp hr with h | h
        · exact mem_setAdd_of_mem _ (hacc r h)
        · have : r = details := by simpa using h
          subst this
          rw [hecho _ _ hdet]
          exact self_mem_setAdd _ _
      · exact ih _ _ _ _ _ hacc
    · exact hacc

lemma selectLoop_picks_from_pool (fetch : String → FetchOutcome) (rand : Nat → Nat) :
    ∀ (fuel : Nat) (available : List String) (newWords : List WordRecord)
      (used picks : List String) (k : Nat) (p : String),
      p ∈ (selectLoop fetch rand fuel available newWords used picks k).picks →
      p ∈ picks ∨ p ∈ available := by
  intro fuel
  induction fuel with
  | zero =>
    intro available nws used picks k p hp
    simp only [selectLoop] at hp
    exact Or.inl hp
  | succ fuel ih =>
    intro available nws used picks k p hp
    rw [selectLoop] at hp
    dsimp only at hp
    have hstep :
        ∀ q, q ∈ picks ++ [available.getD (rand k % available.length) ""] ∨
          q ∈ available.eraseIdx (rand k % available.length) →
          0 < available.length → q ∈ picks ∨ q ∈ available := by
      intro q hq hlen
      rcases hq with hq | hq
      · rcases List.mem_append.mp hq with h | h
        · exact Or.inl h
        · have hq' : q = available.getD (rand k % available.length) "" := by simpa using h
          have hlt : rand k % available.length < available.length := Nat.mod_lt _ hlen
          rw [hq', List.getD_eq_getElem _ _ hlt]
          exact Or.inr (List.getElem_mem hlt)
      · exact Or.inr ((List.eraseIdx_sublist _ _).subset hq)
    split at hp
    · rename_i hcond
      split at hp
      · exact hstep p (ih _ _ _ _ _ _ hp) hcond.2
      · exact hstep p (ih _ _ _ _ _ _ hp) hcond.2
    · exact Or.inl hp

/-! ## Sorting lemmas for the history endpoint -/

lemma insertDesc_perm (d : String) (l : List String) :
    (insertDesc d l).Perm (d :: l) := by
  induction l with
  | nil => simp [insertDesc]
  | cons x xs ih =>
    unfold insertDesc
    split
    · exact List.Perm.refl _
    · exact (ih.cons x).trans (List.Perm.swap d x xs)

lemma pairwise_insertDesc (d : String) (l : List String)
    (h : List.Pairwise (fun a b => b ≤ a) l) :
    List.Pairwise (fun a b => b ≤ a) (insertDesc d l) := by
  induction l with
  | nil => simp [insertDesc]
  | cons x xs ih =>
    rw [List.pairwise_cons] at h
    unfold insertDesc
    split
    · rename_i hxd
      rw [List.pairwise_cons]
      refine ⟨?_, List.pairwise_cons.mpr h⟩
      intro y hy
      rcases List.mem_cons.mp hy with rfl | hy'
      · exact hxd
      · exact le_trans (h.1 y hy') hxd
    · rename_i hxd
      rw [List.pairwise_cons]
      refine ⟨?_, ih h.2⟩
      intro y hy
      have hy' : y ∈ d :: xs := (insertDesc_perm d xs).mem_iff.mp hy
      rcases List.mem_cons.mp hy' with rfl | h'
      · exact le_of_not_le hxd
      · exact h.1 y h'

lemma foldr_insertDesc_perm (l : List String) :
    (l.foldr insertDesc []).Perm l := by
  induction l with
  | nil => exact List.Perm.refl _
  | cons x xs ih =>
    rw [List.foldr_cons]
    exact (insertDesc_perm x _).trans (ih.cons x)

lemma foldr_insertDesc_pairwise (l : List String) :
    List.Pairwise (fun a b => b ≤ a) (l.foldr insertDesc []) := by
  induction l with
  | nil => simp
  | cons x xs ih =>
    rw [List.foldr_cons]
    exact pairwise_insertDesc x _ ih

/-! ## The claims -/

/-- Claim C9: `listDates` (the `GET /api/history` handler) returns exactly
the History Store's date keys, as a sequence sorted in descending order
(most recent first), and the empty sequence on the empty store. -/
theorem listDates_desc_keys (history : History) :
    (listDates history).Perm (history.map Prod.fst) ∧
    List.Pairwise (fun a b => b ≤ a) (listDates history) ∧
    listDates ([] : History) = [] :=
  ⟨foldr_insertDesc_perm _, foldr_insertDesc_pairwise _, rfl⟩

/-- Claim C8: `getWords` (the `GET /api/words/:date` handler) returns exactly
the records stored under a present key and a distinct not-found signal for an
absent key (never an empty sequence, never fabricated data). -/
theorem getWords_present_or_notFound (history : History) (date : String)
    (recs : List WordRecord) :
    (lookupHistory history date = some recs → getWords history date = ApiResult.ok recs) ∧
    (lookupHistory history date = none → getWords history date = ApiResult.notFound) := by
  constructor <;> intro hl <;> simp [getWords, hl]

/-- Witness for C8 at concrete inputs: a present key (even one holding `[]`)
is returned as-is, and an absent key yields the not-found signal. -/
theorem getWords_present_or_notFound_witness :
    getWords [("2024-01-01", [])] "2024-01-01" = ApiResult.ok [] ∧
    getWords [("2024-01-01", [])] "2099-01-01" = ApiResult.notFound :=
  ⟨(getWords_present_or_notFound [("2024-01-01", [])] "2024-01-01" []).1 (by decide),
   (getWords_present_or_notFound [("2024-01-01", [])] "2099-01-01" []).2 (by decide)⟩

/-- Claim C7: the Definition Enricher is a total function to `Option`: on any
outcome other than a success response with at least one entry (non-success
status, transport/parse failure, or an empty entries array) it yields `none`
rather than propagating an error. -/
theorem getWordDetails_none_unless_entry (word : String) (fetch : String → FetchOutcome)
    (h : ∀ e rest, fetch word ≠ FetchOutcome.ok (e :: rest)) :
    getWordDetails word fetch = none := by
  unfold getWordDetails
  cases hf : fetch word with
  | ok entries =>
    cases entries with
    | nil => rfl
    | cons e rest => exact absurd hf (h e rest)
  | httpError => rfl
  | failure => rfl

/-- Witness for C7: a non-success response yields `none`. -/
theorem getWordDetails_none_unless_entry_witness :
    getWordDetails "alpha" (fun _ => FetchOutcome.httpError) = none :=
  getWordDetails_none_unless_entry "alpha" (fun _ => FetchOutcome.httpError)
    (fun _ _ h => FetchOutcome.noConfusion h)

/-- Claim C3: a run of the Daily Selection Engine for a date whose key is
already present in the History Store is a no-op: neither store changes,
whatever the word list, the enrichment outcomes, the randomness, or the
success of the (never reached) saves. -/
theorem updateDailyWords_noop_when_committed (today : String) (wordlist : List String)
    (fetch : String → FetchOutcome) (rand : Nat → Nat) (f1 f2 : Bool) (s : StoreState)
    (h : (lookupHistory s.history today).isSome = true) :
    updateDailyWords today wordlist fetch rand f1 f2 s = s := by
  unfold updateDailyWords
  rw [if_pos h]

/-- Witness for C3: re-running for a date already in the store changes
nothing, even with a word list and a cooperative enrichment service. -/
theorem updateDailyWords_noop_when_committed_witness :
    (lookupHistory [("2024-01-01", [])] "2024-01-01").isSome = true ∧
    updateDailyWords "2024-01-01" ["alpha", "beta", "gamma"]
        (fun w => FetchOutcome.ok [⟨w, "", [], []⟩]) (fun _ => 0) true true
        ⟨[("2024-01-01", [])], ["zeta"]⟩ =
      ⟨[("2024-01-01", [])], ["zeta"]⟩ :=
  ⟨by decide,
   updateDailyWords_noop_when_committed "2024-01-01" ["alpha", "beta", "gamma"]
     (fun w => FetchOutcome.ok [⟨w, "", [], []⟩]) (fun _ => 0) true true
     ⟨[("2024-01-01", [])], ["zeta"]⟩ (by decide)⟩

/-- Claim C4: no word already in the Usage Ledger at the start of a run is
ever drawn as a candidate during that run: the pool is the corpus minus the
used set and the loop only draws (and splices out) pool elements. -/
theorem run_never_picks_used_word (today : String) (wordlist : List String)
    (fetch : String → FetchOutcome) (rand : Nat → Nat) (s : StoreState) (p : String)
    (hp : p ∈ updateDailyWordsPicks today wordlist fetch rand s) :
    p ∉ s.used := by
  unfold updateDailyWordsPicks at hp
  by_cases h1 : (lookupHistory s.history today).isSome = true
  · rw [if_pos h1] at hp
    exact absurd hp (List.not_mem_nil p)
  · rw [if_neg h1] at hp
    dsimp only at hp
    by_cases h2 : (wordlist.filter fun w => !(setOfList s.used).contains w).length < 3
    · rw [if_pos h2] at hp
      exact absurd hp (List.not_mem_nil p)
    · rw [if_neg h2] at hp
      rcases selectLoop_picks_from_pool fetch rand _ _ _ _ _ _ p hp with h | h
      · exact absurd h (List.not_mem_nil p)
      · obtain ⟨_, hb⟩ := List.mem_filter.mp h
        intro hc
        have hcon : (setOfList s.used).contains p = true :=
          List.elem_iff.mpr (mem_setOfList.mpr hc)
        rw [hcon] at hb
        simp at hb

/-- Witness for C4: with ledger `{"alpha"}`, the run picks only from the
unused remainder of the corpus; "beta" is picked and is not in the ledger. -/
theorem run_never_picks_used_word_witness :
    "beta" ∈ updateDailyWordsPicks "2024-01-02" ["alpha", "beta", "gamma", "delta"]
        (fun w => FetchOutcome.ok [⟨w, "", [], []⟩]) (fun _ => 0) ⟨[], ["alpha"]⟩ ∧
    "beta" ∉ (⟨[], ["alpha"]⟩ : StoreState).used :=
  ⟨by decide,
   run_never_picks_used_word "2024-01-02" ["alpha", "beta", "gamma", "delta"]
     (fun w => FetchOutcome.ok [⟨w, "", [], []⟩]) (fun _ => 0) ⟨[], ["alpha"]⟩ "beta"
     (by decide)⟩

/-- Counterexample to claim C1 as stated: a run in which the `history.json`
write succeeds and the `used_words.json` write then fails is a failing run
(the error propagates), yet it leaves the History Store changed and the
Usage Ledger unchanged — a partial commit, contradicting "both stores are
left unchanged by every failing run". -/
theorem commit_not_atomic_on_second_save_failure :
    (updateDailyWords "2024-01-03" ["alpha", "beta", "gamma"]
        (fun w => FetchOutcome.ok [⟨w, "", [], []⟩]) (fun _ => 0) true false
        ⟨[], []⟩).history ≠ ([] : History) ∧
    (updateDailyWords "2024-01-03" ["alpha", "beta", "gamma"]
        (fun w => FetchOutcome.ok [⟨w, "", [], []⟩]) (fun _ => 0) true false
        ⟨[], []⟩).used = [] := by
  constructor <;> decide

/-- Claim C1 as amended: (i) every run in which the first commit write does
not succeed — which subsumes every abort before the commit: existing key,
insufficient pool, enrichment shortfall — leaves both stores unchanged;
(ii) even when the first write succeeds and the second fails, the Usage
Ledger keeps its pre-run contents (only the History Store may differ);
(iii) a run aborted by an insufficient pool changes neither store whatever
the save outcomes would have been. -/
theorem saves_gate_commit (today : String) (wordlist : List String)
    (fetch : String → FetchOutcome) (rand : Nat → Nat) (s : StoreState) :
    (∀ f2, updateDailyWords today wordlist fetch rand false f2 s = s) ∧
    (updateDailyWords today wordlist fetch rand true false s).used = s.used ∧
    ((lookupHistory s.history today).isSome = false →
      (wordlist.filter fun w => !(setOfList s.used).contains w).length < 3 →
      ∀ f1 f2, updateDailyWords today wordlist fetch rand f1 f2 s = s) := by
  refine ⟨?_, ?_, ?_⟩
  · intro f2
    unfold updateDailyWords
    split
    · rfl
    · dsimp only
      split
      · rfl
      · split
        · rfl
        · rfl
  · unfold updateDailyWords
    split
    · rfl
    · dsimp only
      split
      · rfl
      · split
        · rfl
        · rfl
  · intro h1 h2 f1 f2
    unfold updateDailyWords
    rw [if_neg (by rw [h1]; exact Bool.false_ne_true)]
    dsimp only
    rw [if_pos h2]

/-- Witness for C1 (amended), part (iii): an empty word list gives an empty
pool, and the run leaves the (empty) stores untouched. -/
theorem saves_gate_commit_witness :
    updateDailyWords "2099-01-01" [] (fun _ => FetchOutcome.failure) (fun _ => 0)
      true true ⟨[], []⟩ = ⟨[], []⟩ :=
  (saves_gate_commit "2099-01-01" [] (fun _ => FetchOutcome.failure) (fun _ => 0)
    ⟨[], []⟩).2.2 (by decide) (by decide) true true

/-- Counterexample to claim C2 as stated: the claim quantifies over every
pre-run state, but a pre-run History Store whose key holds fewer than 3
records survives the run untouched (here the run no-ops on the existing
key), so after the run a present key maps to 0 records. -/
theorem historyInv_fails_for_arbitrary_prestate :
    ¬ HistoryInv (updateDailyWords "2024-01-01" []
        (fun _ => FetchOutcome.failure) (fun _ => 0) true true
        ⟨[("2024-01-01", [])], []⟩) :=
  fun h => absurd (h "2024-01-01" [] (by decide)).1 (by decide)

/-- Claim C2 as amended: if the pre-run state already satisfies the
invariant (every present key holds exactly 3 records whose words are all in
the Usage Ledger), both commit writes succeed, and the enrichment service
echoes the looked-up word verbatim, then the post-run state satisfies the
invariant as well: in particular a freshly written key holds exactly 3
records and their 3 words are in the post-run ledger. -/
theorem updateDailyWords_preserves_historyInv (today : String) (wordlist : List String)
    (fetch : String → FetchOutcome) (rand : Nat → Nat) (s : StoreState)
    (hInv : HistoryInv s)
    (hecho : ∀ w rec, getWordDetails w fetch = some rec → rec.word = w) :
    HistoryInv (updateDailyWords today wordlist fetch rand true true s) := by
  unfold updateDailyWords
  split
  · exact hInv
  · dsimp only
    split
    · exact hInv
    · split
      · rename_i hlen3
        rw [if_pos rfl, if_pos rfl]
        intro d recs hl
        rw [lookup_setKey] at hl
        by_cases hd : today = d
        · rw [if_pos hd] at hl
          injection hl with hl
          subst hl
          refine ⟨hlen3, ?_⟩
          intro r hr
          exact selectLoop_newWords_words fetch rand hecho _ _ _ _ _ _ (by simp) r hr
        · rw [if_neg hd] at hl
          obtain ⟨h3, hw⟩ := hInv d recs hl
          refine ⟨h3, ?_⟩
          intro r hr
          exact selectLoop_used_mono fetch rand _ _ _ _ _ _ _
            (mem_setOfList.mpr (hw r hr))
      · exact hInv

/-- Witness for C2 (amended): from the empty (hence invariant-satisfying)
state, a run with an echoing service and successful writes yields a state
satisfying the invariant. -/
theorem updateDailyWords_preserves_historyInv_witness :
    HistoryInv (updateDailyWords "2024-01-01" ["alpha", "beta", "gamma"]
      (fun w => FetchOutcome.ok [⟨w, "", [], []⟩]) (fun _ => 0) true true ⟨[], []⟩) :=
  updateDailyWords_preserves_historyInv "2024-01-01" ["alpha", "beta", "gamma"]
    (fun w => FetchOutcome.ok [⟨w, "", [], []⟩]) (fun _ => 0) ⟨[], []⟩
    (by intro d recs h; simp [lookupHistory] at h)
    (by
      intro w rec h
      have h' : some (normalizeEntry ⟨w, "", [], []⟩) = some rec := h
      injection h' with h''
      rw [← h'']
      rfl)

lemma nubFirst_cons (x : String) (xs : List String) :
    nubFirst (x :: xs) = x :: nubFirst (xs.filter fun y => y ≠ x) := by
  rw [nubFirst.eq_def]

lemma foldl_setAdd_eq_nubFirst (ws : List String) :
    ∀ acc : List String,
      ws.foldl setAdd acc = acc ++ nubFirst (ws.filter fun x => x ∉ acc) := by
  induction ws with
  | nil =>
    intro acc
    simp [nubFirst]
  | cons w ws ih =>
    intro acc
    rw [List.foldl_cons]
    by_cases hw : w ∈ acc
    · have hsa : setAdd acc w = acc := by rw [setAdd, if_pos hw]
      have hfc : ((w :: ws).filter fun x => x ∉ acc) = ws.filter fun x => x ∉ acc := by
        simp [hw]
      rw [hsa, hfc]
      exact ih acc
    · have hsa : setAdd acc w = acc ++ [w] := by rw [setAdd, if_neg hw]
      have hfc : ((w :: ws).filter fun x => x ∉ acc) =
          w :: ws.filter fun x => x ∉ acc := by
        simp [hw]
      rw [hsa, hfc, nubFirst_cons, ih (acc ++ [w])]
      have hff : ((ws.filter fun x => x ∉ acc).filter fun y => y ≠ w) =
          ws.filter fun x => x ∉ acc ++ [w] := by
        rw [List.filter_filter]
        refine List.filter_congr ?_
        intro x _
        by_cases h1 : x ∈ acc <;> by_cases h2 : x = w <;> simp [h1, h2]
      rw [hff]
      simp

lemma setOfList_eq_nubFirst (l : List String) : setOfList l = nubFirst l := by
  rw [setOfList, foldl_setAdd_eq_nubFirst]
  have hfl : (l.filter fun x => x ∉ ([] : List String)) = l :=
    (List.filter_congr fun x _ => by simp).trans (List.filter_true l)
  rw [hfl, List.nil_append]

/-- Claim C5: the corpus builder keeps a token iff some input line's trimmed
first comma-delimited field equals it and it is non-empty, longer than 2,
and fully ASCII-alphabetic; duplicates collapse to a single entry
(`Nodup`) in first-seen order: the output is exactly the first-seen-order
deduplication (`nubFirst`) of the filtered field stream, hence also a
sublist of that stream. -/
theorem buildCorpus_membership (lines : List String) :
    (buildCorpus lines).Nodup ∧
    (buildCorpus lines).Sublist ((lines.map firstField).filter keepWord) ∧
    buildCorpus lines = nubFirst ((lines.map firstField).filter keepWord) ∧
    ∀ w, w ∈ buildCorpus lines ↔
      ((∃ line, line ∈ lines ∧ firstField line = w) ∧
        w ≠ "" ∧ 2 < w.length ∧ w.data.all isAsciiAlpha = true) := by
  refine ⟨nodup_foldl_setAdd _ [] List.nodup_nil, ?_, ?_, ?_⟩
  · obtain ⟨t, ht, hs⟩ := foldl_setAdd_append ((lines.map firstField).filter keepWord) []
    rw [buildCorpus, setOfList, ht]
    simpa using hs
  · rw [buildCorpus]
    exact setOfList_eq_nubFirst _
  · intro w
    rw [buildCorpus, mem_setOfList, List.mem_filter]
    constructor
    · rintro ⟨hm, hk⟩
      obtain ⟨line, hline, rfl⟩ := List.mem_map.mp hm
      refine ⟨⟨line, hline, rfl⟩, ?_⟩
      simp only [keepWord, Bool.and_eq_true, decide_eq_true_eq] at hk
      exact ⟨hk.1.1, hk.1.2, hk.2⟩
    · rintro ⟨⟨line, hline, rfl⟩, hcond⟩
      refine ⟨List.mem_map.mpr ⟨line, hline, rfl⟩, ?_⟩
      simp only [keepWord, Bool.and_eq_true, decide_eq_true_eq]
      exact ⟨⟨hcond.1, hcond.2.1⟩, hcond.2.2⟩

lemma jsOr_empty (a : String) : jsOr a "" = a := by
  unfold jsOr
  split
  · rename_i h
    exact h.symm
  · rfl

lemma normalizeEntry_eq_wordRecordSpec (e : Entry) :
    normalizeEntry e = wordRecordSpec e := by
  refine WordRecord.ext ?_ ?_ ?_ ?_ ?_ ?_ ?_
  · rfl
  · dsimp only [normalizeEntry, wordRecordSpec]
    rw [jsOr_empty]
    simp only [jsOr]
    by_cases hp : e.phonetic = ""
    · rw [if_pos hp, if_neg fun h => h hp]
      split
      · rename_i p hfind
        rw [hfind]
        rfl
      · rename_i hfind
        rw [hfind]
        rfl
    · rw [if_neg hp, if_pos hp]
  · dsimp only [normalizeEntry, wordRecordSpec]
    split
    · rename_i p hfind
      rw [hfind]
      rfl
    · rename_i hfind
      rw [hfind]
      rfl
  · dsimp only [normalizeEntry, wordRecordSpec]
    split
    · rename_i hm
      rw [hm]
      simp [jsOr]
    · rename_i m hm
      rw [hm, Option.some_bind]
      split
      · rename_i hd
        rw [hd]
        simp [jsOr]
      · rename_i d hd
        rw [hd]
        by_cases h0 : d.definition = "" <;> simp [jsOr, h0]
  · dsimp only [normalizeEntry, wordRecordSpec]
    split
    · rename_i hm
      rw [hm]
      simp [jsOr]
    · rename_i m hm
      rw [hm, Option.some_bind]
      split
      · rename_i d hfind
        rw [hfind]
        have hne := List.find?_some hfind
        simp only [decide_eq_true_eq] at hne
        simp [jsOr, hne]
      · rename_i hfind
        rw [hfind]
        simp [jsOr]
  · dsimp only [normalizeEntry, wordRecordSpec]
    split
    · rename_i hm
      rw [hm]
      rfl
    · rename_i m hm
      rw [hm]
      rfl
  · dsimp only [normalizeEntry, wordRecordSpec]
    split
    · rename_i hm
      rw [hm]
      rfl
    · rename_i m hm
      rw [hm]
      rfl

/-- Claim C6: on a successful lookup the Definition Enricher normalizes the
first returned entry exactly as the spec's clause-by-clause rules
(`wordRecordSpec`) prescribe: pronunciation from the top-level phonetic,
else the first phonetics element with non-empty text, else empty; audio
from the first phonetics element with non-empty audio, else empty; meaning
and example from the first meaning group with their fixed placeholders;
synonyms and antonyms from the first meaning group, else empty. -/
theorem getWordDetails_normalizes_per_spec (word : String)
    (fetch : String → FetchOutcome) (e : Entry) (rest : List Entry)
    (h : fetch word = FetchOutcome.ok (e :: rest)) :
    getWordDetails word fetch = some (wordRecordSpec e) := by
  unfold getWordDetails
  rw [h]
  exact congrArg some (normalizeEntry_eq_wordRecordSpec e)

/-- Witness for C6 at a concrete response entry. -/
theorem getWordDetails_normalizes_per_spec_witness :
    getWordDetails "alpha"
        (fun _ => FetchOutcome.ok [⟨"alpha", "AL-fuh", [], []⟩]) =
      some (wordRecordSpec ⟨"alpha", "AL-fuh", [], []⟩) :=
  getWordDetails_normalizes_per_spec "alpha"
    (fun _ => FetchOutcome.ok [⟨"alpha", "AL-fuh", [], []⟩])
    ⟨"alpha", "AL-fuh", [], []⟩ [] rfl

/-- Claim C10: the WordRecord's `word` field comes from the response entry
(`entry.word`), not from the locally selected word, while the Usage Ledger
receives the locally selected word; with a service that echoes a different
string, the committed day's record words all differ from the ledger
entries for the same run. -/
theorem record_word_from_entry_ledger_from_selection :
    (∀ (word : String) (fetch : String → FetchOutcome) (e : Entry) (rest : List Entry),
      fetch word = FetchOutcome.ok (e :: rest) →
      getWordDetails word fetch = some (normalizeEntry e) ∧
        (normalizeEntry e).word = e.word) ∧
    ((updateDailyWords "2024-01-03" ["alpha", "beta", "gamma"]
        (fun w => FetchOutcome.ok [⟨w ++ "X", "", [], []⟩]) (fun _ => 0) true true
        ⟨[], []⟩).used = ["alpha", "beta", "gamma"] ∧
      (updateDailyWords "2024-01-03" ["alpha", "beta", "gamma"]
          (fun w => FetchOutcome.ok [⟨w ++ "X", "", [], []⟩]) (fun _ => 0) true true
          ⟨[], []⟩).history.map (fun p => (p.1, p.2.map WordRecord.word)) =
        [("2024-01-03", ["alphaX", "betaX", "gammaX"])] ∧
      ∀ v ∈ ["alphaX", "betaX", "gammaX"],
        v ∉ (updateDailyWords "2024-01-03" ["alpha", "beta", "gamma"]
          (fun w => FetchOutcome.ok [⟨w ++ "X", "", [], []⟩]) (fun _ => 0) true true
          ⟨[], []⟩).used) := by
  constructor
  · intro word fetch e rest h
    refine ⟨?_, rfl⟩
    unfold getWordDetails
    rw [h]
  · exact ⟨by decide, by decide, by decide⟩

/-- Witness for C10: a service echoing "Alpha" for the lookup "alpha" yields
a record whose `word` is "Alpha", the entry's string. -/
theorem record_word_from_entry_ledger_from_selection_witness :
    getWordDetails "alpha" (fun _ => FetchOutcome.ok [⟨"Alpha", "", [], []⟩]) =
        some (normalizeEntry ⟨"Alpha", "", [], []⟩) ∧
      (normalizeEntry ⟨"Alpha", "", [], []⟩).word = "Alpha" :=
  record_word_from_entry_ledger_from_selection.1 "alpha"
    (fun _ => FetchOutcome.ok [⟨"Alpha", "", [], []⟩]) ⟨"Alpha", "", [], []⟩ [] rfl
